import Mathlib

/-!
# dish: command execution and job selection

A shallow embedding of `src/command.cpp` (`Redirect::get`, `SimpleCmd::execute`,
`SimpleCmd::expand_wildcards`, `Command::execute`) and of the job selection of
`src/builtin.cpp` (`builtin_fg`, `builtin_bg`), with the process's descriptor table
as explicit state.
-/

namespace Dish

/-! ## Wildcard expansion (`SimpleCmd::expand_wildcards`) -/

/-- The two helpers of `dish/utils.hpp` that `SimpleCmd::expand_wildcards` calls. The header is
not part of the sources, so both are parameters of the embedding. -/
structure Utils where
  has_wildcards : String → Bool
  expand_wildcards : String → List String

/-- The loop of `SimpleCmd::expand_wildcards`. `it` is the position of the iterator in `args`;
`calls` records, in order, every string handed to `utils::expand_wildcards`. When the argument
under the iterator has wildcards it is erased and its expansion inserted at the same position,
and the iterator is left on the first inserted string (`vector::insert` returns that position);
otherwise the iterator moves on. The C++ loop has no bound, so the embedding takes fuel and
returns `none` when it runs out. -/
def expand_wildcards_loop (u : Utils) :
    Nat → List String → Nat → List String → Option (List String × List String)
  | 0, _, _, _ => none
  | fuel + 1, args, it, calls =>
    if h : it < args.length then
      if u.has_wildcards (args.get ⟨it, h⟩) then
        let expanded := u.expand_wildcards (args.get ⟨it, h⟩)
        let erased := args.eraseIdx it
        expand_wildcards_loop u fuel (erased.take it ++ expanded ++ erased.drop it) it
          (calls ++ [args.get ⟨it, h⟩])
      else
        expand_wildcards_loop u fuel args (it + 1) calls
    else
      some (args, calls)

/-- Embeds `SimpleCmd::expand_wildcards`: the loop started with the iterator at `args.begin()`. The
result is the final `args` and the list of strings that were expanded. -/
def expand_wildcards (u : Utils) (fuel : Nat) (args : List String) :
    Option (List String × List String) :=
  expand_wildcards_loop u fuel args 0 []

/-- The same loop on a split argument list: `done` is what lies before the iterator, the third
argument what lies from the iterator on. Used to reason about `expand_wildcards_loop`. -/
def expand_wildcards_zip (u : Utils) :
    Nat → List String → List String → List String → Option (List String × List String)
  | 0, _, _, _ => none
  | _ + 1, done, [], calls => some (done, calls)
  | fuel + 1, done, a :: rest, calls =>
    if u.has_wildcards a then
      expand_wildcards_zip u fuel done (u.expand_wildcards a ++ rest) (calls ++ [a])
    else
      expand_wildcards_zip u fuel (done ++ [a]) rest calls

/-- What the specification says the expansion yields: every argument with wildcards replaced by
its expansion, every other argument kept, in order. -/
def expand_spec (u : Utils) (args : List String) : List String :=
  args.flatMap (fun a => if u.has_wildcards a then u.expand_wildcards a else [a])

/-- Whether a string holds one of the glob characters `*`, `?`, `[`; a concrete
`has_wildcards` for the examples. -/
def glob_chars (s : String) : Bool :=
  s.data.any (fun c => c = '*' || c = '?' || c = '[')

/-- A directory holding `x1.c` and `x[1].c`: the pattern `*.c` matches both, and the name
`x[1].c`, read as a pattern, matches `x1.c` alone. -/
def utils_brackets : Utils where
  has_wildcards := glob_chars
  expand_wildcards := fun s =>
    if s = "*.c" then ["x1.c", "x[1].c"] else if s = "x[1].c" then ["x1.c"] else []

/-- A directory holding one file, named `*`: the pattern `*` expands to itself. -/
def utils_star : Utils where
  has_wildcards := glob_chars
  expand_wildcards := fun s => if s = "*" then ["*"] else []

/-- A directory in which no pattern matches anything. -/
def utils_nomatch : Utils where
  has_wildcards := glob_chars
  expand_wildcards := fun _ => []

/-- A directory holding `x.c` and `y.c`. -/
def utils_src : Utils where
  has_wildcards := glob_chars
  expand_wildcards := fun s => if s = "*.c" then ["x.c", "y.c"] else []

/-! ## The process's descriptor table and the system calls of `command.cpp` -/

/-- An open file description, the thing a descriptor refers to. -/
inductive File
  /-- The description the shell held on descriptor `n` before the call. -/
  | inherited (n : Nat)
  /-- The read end of the pipe with the given identity. -/
  | pipe_read (id : Nat)
  /-- The write end of the pipe with the given identity. -/
  | pipe_write (id : Nat)
  /-- A description made by `open(path, mode)`; `id` tells two opens apart. -/
  | opened (path : String) (mode : Nat) (id : Nat)
  deriving DecidableEq, Repr

/-- The system calls made by `Command::execute` and `SimpleCmd::execute`. -/
inductive Call
  | dup (fd : Int)
  | dup2 (oldfd newfd : Int)
  | close (fd : Int)
  | pipe
  | open_ (path : String) (mode : Nat)
  | fork
  deriving DecidableEq, Repr

/-- What the run leaves behind, in order: each system call with its return value, each
diagnostic line (`fmt::println("open: ...")` is `println "open"`), and each call of
`SimpleCmd::execute` that reached dispatch, with its expanded arguments and the open file
descriptions that descriptors 0 and 1 referred to at that moment. -/
inductive Event
  | sys (call : Call) (ret : Int)
  | println (msg : String)
  | execute (args : List String) (stdin stdout : Option File)
  deriving DecidableEq, Repr

/-- A system call succeeded when it did not return `-1`; other events count as fine. -/
def Event.ok : Event → Bool
  | .sys _ ret => ret != -1
  | _ => true

/-- The state the embedded code runs on: the descriptor table (`fds n` is the open file
description descriptor `n` refers to), the number of descriptors the process may hold
(`RLIMIT_NOFILE`), a counter for fresh kernel objects (open file descriptions, process ids),
the outcome the operating system imposes on the coming system calls (`true`: the call fails
whatever its arguments; an exhausted list imposes nothing), the trace, and the two fields of
`DishInfo` that `command.cpp` writes. -/
structure Sys where
  fds : Nat → Option File
  limit : Nat
  counter : Nat
  faults : List Bool
  trace : List Event
  background : Bool
  last_ret : Int

/-- The open file description that the C `int` descriptor `fd` refers to, if any. -/
def Sys.file (s : Sys) (fd : Int) : Option File :=
  if 0 ≤ fd then s.fds fd.toNat else none

/-- The outcome imposed on the coming system call: `true` when it is to fail. -/
def Sys.imposed (s : Sys) : Bool :=
  match s.faults with
  | [] => false
  | b :: _ => b

/-- The lowest unused descriptor among `n, n+1, ..., n+k-1`. -/
def lowest_free_from (fds : Nat → Option File) : Nat → Nat → Option Nat
  | 0, _ => none
  | k + 1, n => if (fds n).isNone then some n else lowest_free_from fds k (n + 1)

/-- The descriptor a call that allocates one returns: the lowest unused one below the limit. -/
def lowest_free (fds : Nat → Option File) (limit : Nat) : Option Nat :=
  lowest_free_from fds limit 0

/-- Appends a diagnostic line to the trace. -/
def println (msg : String) (s : Sys) : Sys :=
  { s with trace := s.trace ++ [Event.println msg] }

/-- Records a system call and consumes the outcome imposed on it. -/
def Sys.record (s : Sys) (call : Call) (ret : Int) (fds : Nat → Option File) (counter : Nat) :
    Sys :=
  { s with fds := fds, counter := counter, faults := s.faults.tail,
           trace := s.trace ++ [Event.sys call ret] }

/-- The call `dup(fd)`: the lowest unused descriptor is made to refer to the description of `fd`.
Fails (`-1`) when imposed, when `fd` is not open (`EBADF`), or when no descriptor is left
(`EMFILE`). -/
def sys_dup (fd : Int) (s : Sys) : Int × Sys :=
  match s.imposed, s.file fd, lowest_free s.fds s.limit with
  | false, some f, some n =>
    ((n : Int), s.record (.dup fd) n (Function.update s.fds n (some f)) s.counter)
  | _, _, _ => (-1, s.record (.dup fd) (-1) s.fds s.counter)

/-- The call `dup2(oldfd, newfd)`: `newfd` is made to refer to the description of `oldfd`
(whatever it referred to is closed); nothing changes when both are the same open descriptor.
Fails when imposed, when `oldfd` is not open, or when `newfd` is out of range (`EBADF`). -/
def sys_dup2 (oldfd newfd : Int) (s : Sys) : Int × Sys :=
  match s.imposed, s.file oldfd with
  | false, some f =>
    if 0 ≤ newfd ∧ newfd.toNat < s.limit then
      (newfd, s.record (.dup2 oldfd newfd) newfd
        (Function.update s.fds newfd.toNat (some f)) s.counter)
    else (-1, s.record (.dup2 oldfd newfd) (-1) s.fds s.counter)
  | _, _ => (-1, s.record (.dup2 oldfd newfd) (-1) s.fds s.counter)

/-- The call `close(fd)`: the descriptor becomes unused. Fails when imposed or when `fd` is
not open. -/
def sys_close (fd : Int) (s : Sys) : Int × Sys :=
  match s.imposed, s.file fd with
  | false, some _ =>
    (0, s.record (.close fd) 0 (Function.update s.fds fd.toNat none) s.counter)
  | _, _ => (-1, s.record (.close fd) (-1) s.fds s.counter)

/-- The call `pipe(fdpipe)`: a fresh pipe; its read end goes to the lowest unused descriptor
(`fdpipe[0]`), its write end to the next one (`fdpipe[1]`). The result is the return value,
`fdpipe[0]`, `fdpipe[1]` and the new state. Fails when imposed or when fewer than two
descriptors are left; `fdpipe` is then left as it was, which the callers never read. -/
def sys_pipe (s : Sys) : Int × Int × Int × Sys :=
  match s.imposed, lowest_free s.fds s.limit with
  | false, some r =>
    let fds1 := Function.update s.fds r (some (File.pipe_read s.counter))
    match lowest_free fds1 s.limit with
    | some w =>
      (0, (r : Int), (w : Int),
        s.record .pipe 0 (Function.update fds1 w (some (File.pipe_write s.counter)))
          (s.counter + 1))
    | none => (-1, -1, -1, s.record .pipe (-1) s.fds s.counter)
  | _, _ => (-1, -1, -1, s.record .pipe (-1) s.fds s.counter)

/-- The call `open(path, mode)`: a fresh open file description on the lowest unused
descriptor. Fails when imposed (no such file, no permission, ...) or when no descriptor is left. -/
def sys_open (path : String) (mode : Nat) (s : Sys) : Int × Sys :=
  match s.imposed, lowest_free s.fds s.limit with
  | false, some n =>
    ((n : Int), s.record (.open_ path mode) n
      (Function.update s.fds n (some (File.opened path mode s.counter))) (s.counter + 1))
  | _, _ => (-1, s.record (.open_ path mode) (-1) s.fds s.counter)

/-- The call `fork()`, seen from the parent: the child's process id (positive), or `-1` when imposed
(`EAGAIN`, `ENOMEM`). The parent's descriptor table is untouched; the child starts with a
copy of it. -/
def sys_fork (s : Sys) : Int × Sys :=
  match s.imposed with
  | false => ((s.counter : Int) + 1, s.record .fork ((s.counter : Int) + 1) s.fds (s.counter + 1))
  | true => (-1, s.record .fork (-1) s.fds s.counter)

/-- The flag values of `<fcntl.h>` on Linux; an open mode is a set of flags, a natural number. -/
def O_RDONLY : Nat := 0

def O_WRONLY : Nat := 1

def O_CREAT : Nat := 64

def O_TRUNC : Nat := 512

def O_APPEND : Nat := 1024

/-! ## `Redirect` -/

/-- The kinds of redirect: the enumerators of `RedirectType` in `dish/job.hpp`, and `output`,
which the constructor of `Command` names (`dish/command.hpp` is not part of the sources). -/
inductive RedirectType
  | overwrite
  | append
  | input
  | fd
  | output
  deriving DecidableEq, Repr

/-- The class `Redirect`: a kind and a `std::variant<int, std::string>`, index 0 being the
descriptor. -/
structure Redirect where
  type : RedirectType
  redirect : Int ⊕ String

/-- Embeds `Redirect::is_description`: the variant holds a descriptor. -/
def Redirect.is_description (r : Redirect) : Bool :=
  match r.redirect with
  | .inl _ => true
  | .inr _ => false

/-- Embeds `Redirect::get_description`: the descriptor held (`std::get<int>` throws when the variant
holds a path: `none`; every call in `command.cpp` comes after `is_description`). -/
def Redirect.get_description (r : Redirect) : Option Int :=
  match r.redirect with
  | .inl d => some d
  | .inr _ => none

/-- Embeds `Redirect::get_filename`: the path held. -/
def Redirect.get_filename (r : Redirect) : Option String :=
  match r.redirect with
  | .inl _ => none
  | .inr p => some p

/-- Embeds `Redirect::get(int mode)`: the stored descriptor as it is, or `open(filename, mode)` with
the mode the caller passed. `type` is not read. -/
def Redirect.get (r : Redirect) (mode : Nat) (s : Sys) : Int × Sys :=
  match r.redirect with
  | .inl d => (d, s)
  | .inr filename => sys_open filename mode s

/-- The open mode the specification derives from the kind of a path target: write+truncate
for overwrite, write+append for append, read-only for input. -/
def spec_open_mode : RedirectType → Option Nat
  | .overwrite => some (O_WRONLY ||| O_TRUNC)
  | .append => some (O_WRONLY ||| O_APPEND)
  | .input => some O_RDONLY
  | _ => none

/-- The `open` calls of a trace, with their modes. -/
def opens (t : List Event) : List (String × Nat) :=
  t.filterMap (fun e => match e with
    | .sys (.open_ p m) _ => some (p, m)
    | _ => none)

/-- The `close` calls of a trace. -/
def closes (t : List Event) : List Int :=
  t.filterMap (fun e => match e with
    | .sys (.close fd) _ => some fd
    | _ => none)

/-! ## `SimpleCmd` and `Command` -/

/-- A builtin handler, as far as `Command::execute` can tell: from the arguments and the
descriptor table to a return value and the descriptor table it leaves. -/
abbrev Builtin := List String → (Nat → Option File) → Int × (Nat → Option File)

/-- What `SimpleCmd::execute` takes from outside `command.cpp`: the helpers of `utils.hpp`, the
table `builtin::builtins` (`dish/builtin.hpp` is not part of the sources), the wait status
`waitpid` stores for the program run with the given arguments, and the value an uninitialised
`child_status` happens to hold. -/
structure Env where
  utils : Utils
  builtins : String → Option Builtin
  wait_status : List String → Int
  indeterminate : Int

/-- The ways `SimpleCmd::execute` can fail to return: the expansion loop does not finish, or
`args[0]` is read from an empty vector. -/
inductive Fault
  | diverged
  | out_of_bounds
  deriving DecidableEq, Repr

/-- The macro `WEXITSTATUS(status)`: bits 8 to 15 of the wait status. -/
def WEXITSTATUS (status : Int) : Int := (status / 256) % 256

/-- The class `SimpleCmd`: its argument vector. -/
structure SimpleCmd where
  args : List String
  deriving DecidableEq, Repr

/-- Embeds `SimpleCmd::execute`. After the expansion, `args[0]` selects a builtin, which runs
in the shell, or else the call forks. Each call that reaches dispatch is recorded in the
trace. The return value of `fork` is only compared with `0`, so a failed fork takes the
parent branch as well; `child_status` is written by `waitpid` only when the fork succeeded
and the command is not in the background, and holds `env.indeterminate` otherwise. -/
def SimpleCmd.execute (env : Env) (fuel : Nat) (c : SimpleCmd) (s : Sys) :
    Except Fault (Int × Sys) :=
  match expand_wildcards env.utils fuel c.args with
  | none => .error .diverged
  | some (args, _) =>
    match args with
    | [] => .error .out_of_bounds
    | name :: _ =>
      let s0 := { s with trace := s.trace ++ [Event.execute args (s.fds 0) (s.fds 1)] }
      match env.builtins name with
      | some handler =>
        let r := handler args s0.fds
        .ok (r.1, { s0 with fds := r.2, last_ret := r.1 })
      | none =>
        let f := sys_fork s0
        let child_status :=
          if f.1 ≠ -1 ∧ s.background = false then env.wait_status args else env.indeterminate
        let ret := WEXITSTATUS child_status
        .ok (ret, { f.2 with last_ret := ret })

/-- The class `Command`: the units of the pipeline, its three redirects and the background
flag. -/
structure Command where
  commands : List SimpleCmd
  out : Redirect
  in_ : Redirect
  err : Redirect
  background : Bool

/-- The redirects the constructor of `Command` sets: `out(RedirectType::output, 0)`,
`in(RedirectType::input, 1)`, `err(RedirectType::output, 0)`, not in the background. -/
def Command.mk_default (commands : List SimpleCmd) : Command where
  commands := commands
  out := ⟨.output, .inl 0⟩
  in_ := ⟨.input, .inl 1⟩
  err := ⟨.output, .inl 0⟩
  background := false

/-- Lines 207 to 228 of `Command::execute`: standard input and output are put back from
`tmpin` and `tmpout`, both are closed, and `ret` is returned; each call is checked. -/
def Command.restore (tmpin tmpout ret : Int) (s : Sys) : Int × Sys :=
  let r1 := sys_dup2 tmpin 0 s
  if r1.1 = -1 then (-1, println "dup2" r1.2) else
  let r2 := sys_dup2 tmpout 1 r1.2
  if r2.1 = -1 then (-1, println "dup2" r2.2) else
  let r3 := sys_close tmpin r2.2
  if r3.1 = -1 then (-1, println "close" r3.2) else
  let r4 := sys_close tmpout r3.2
  if r4.1 = -1 then (-1, println "close" r4.2) else
  (ret, r4.2)

/-- Lines 159 to 190 of `Command::execute`: the choice of `fdout`. For the last unit it is the
resolved `out` redirect, or a duplicate of `tmpout` when `out` is the default descriptor 0;
for an earlier unit it is the write end of a new pipe, whose read end becomes `fdin`. The
result is `none` when the function returns `-1` here, and otherwise `(fdout, fdin)`. -/
def Command.output (c : Command) (last : Bool) (tmpout fdin : Int) (s : Sys) :
    Option (Int × Int) × Sys :=
  if last then
    if !c.out.is_description || c.out.get_description != some 0 then
      let r := c.out.get O_WRONLY s
      if r.1 = -1 then (none, println "open" r.2) else (some (r.1, fdin), r.2)
    else
      let r := sys_dup tmpout s
      if r.1 = -1 then (none, println "dup" r.2) else (some (r.1, fdin), r.2)
  else
    let r := sys_pipe s
    if r.1 = -1 then (none, println "pipe" r.2.2.2) else (some (r.2.2.1, r.2.1), r.2.2.2)

/-- The loop of `Command::execute` (lines 154 to 205) followed by the restoring tail. In each
turn: `dup2(fdin, 0)` and `close(fdin)`, both unchecked; the choice of `fdout`; the unit is
executed; only then `dup2(fdout, 1)` and `close(fdout)`, both checked. The first argument
after the temporaries is what is left of `commands`, then `fdin` and `ret`. -/
def Command.loop (env : Env) (fuel : Nat) (c : Command) (tmpin tmpout : Int) :
    List SimpleCmd → Int → Int → Sys → Except Fault (Int × Sys)
  | [], _, ret, s => .ok (Command.restore tmpin tmpout ret s)
  | scmd :: rest, fdin, _, s =>
    let s1 := (sys_close fdin (sys_dup2 fdin 0 s).2).2
    let o := c.output rest.isEmpty tmpout fdin s1
    match o.1 with
    | none => .ok (-1, o.2)
    | some (fdout, fdin1) =>
      match scmd.execute env fuel { o.2 with background := c.background } with
      | .error e => .error e
      | .ok (ret, s2) =>
        let d := sys_dup2 fdout 1 s2
        if d.1 = -1 then .ok (-1, println "dup2" d.2) else
        let k := sys_close fdout d.2
        if k.1 = -1 then .ok (-1, println "close" k.2) else
        Command.loop env fuel c tmpin tmpout rest fdin1 ret k.2

/-- Lines 134 to 151 of `Command::execute`: the choice of the first `fdin`, the resolved `in`
redirect opened with `O_RDONLY`, or a duplicate of `tmpin` when `in` is the default
descriptor 1. The result is `none` when the function returns `-1` here. -/
def Command.input (c : Command) (tmpin : Int) (s : Sys) : Option Int × Sys :=
  if !c.in_.is_description || c.in_.get_description != some 1 then
    let r := c.in_.get O_RDONLY s
    if r.1 = -1 then (none, println "open" r.2) else (some r.1, r.2)
  else
    let r := sys_dup tmpin s
    if r.1 = -1 then (none, println "dup" r.2) else (some r.1, r.2)

/-- Embeds `Command::execute`: `tmpin = dup(0)` and `tmpout = dup(1)`, both unchecked; the
choice of the first `fdin`; then the loop with `ret = 0`. -/
def Command.execute (env : Env) (fuel : Nat) (c : Command) (s : Sys) :
    Except Fault (Int × Sys) :=
  let t1 := sys_dup 0 s
  let t2 := sys_dup 1 t1.2
  let i := c.input t1.1 t2.2
  match i.1 with
  | none => .ok (-1, i.2)
  | some fdin => Command.loop env fuel c t1.1 t2.1 c.commands fdin 0 i.2

/-- The return value of a run that returned. -/
def returned (r : Except Fault (Int × Sys)) : Option Int :=
  match r with
  | .ok (v, _) => some v
  | .error _ => none

/-- The trace of a run that returned. -/
def trace_of (r : Except Fault (Int × Sys)) : Option (List Event) :=
  match r with
  | .ok (_, s) => some s.trace
  | .error _ => none

/-- A shell holding its terminal on descriptors 0, 1 and 2 and nothing else. -/
def shell_fds : Nat → Option File :=
  fun n => if n < 3 then some (File.inherited n) else none

/-- The state of such a shell, with the outcomes `faults` imposed on the coming calls. -/
def shell (faults : List Bool) : Sys where
  fds := shell_fds
  limit := 64
  counter := 0
  faults := faults
  trace := []
  background := false
  last_ret := 0

/-- No builtins, every program exits with status 0, and no wildcard matches anything new:
names are plain. -/
def env_plain : Env where
  utils := utils_src
  builtins := fun _ => none
  wait_status := fun _ => 0
  indeterminate := 0

/-- The state `s'` continues the trace of `s`. -/
def Sys.extends_to (s s' : Sys) : Prop := ∃ l, s'.trace = s.trace ++ l

/-- The state `s'` continues the trace of `s` with successful events only. -/
def Sys.ok_to (s s' : Sys) : Prop := ∃ l, s'.trace = s.trace ++ l ∧ ∀ e ∈ l, Event.ok e = true

/-- The `execute` events of a trace: which units were run, and on which standard input and
output. -/
def executes (t : List Event) : List (List String × Option File × Option File) :=
  t.filterMap (fun e => match e with
    | .execute args i o => some (args, i, o)
    | _ => none)

/-- The state `s'` continues the trace of `s` without running any unit. -/
def Sys.quiet_to (s s' : Sys) : Prop :=
  ∃ l, s'.trace = s.trace ++ l ∧ executes l = []

/-- A pipeline of two external programs, `a | b`, with the default redirects. -/
def two_stage : Command := Command.mk_default [⟨["a"]⟩, ⟨["b"]⟩]

/-- The pipeline `a > out.txt`, an overwrite target. -/
def to_file : Command :=
  { Command.mk_default [⟨["a"]⟩] with out := ⟨.overwrite, .inr "out.txt"⟩ }

/-- The pipeline `a >> log.txt < in.txt`, an append target and an input target. -/
def append_file : Command :=
  { Command.mk_default [⟨["a"]⟩] with
      out := ⟨.append, .inr "log.txt"⟩, in_ := ⟨.input, .inr "in.txt"⟩ }

/-- The exceptions `std::stoi` throws. -/
inductive StoiError
  | invalid_argument
  | out_of_range
  deriving DecidableEq, Repr

/-- The function `isspace` in the C locale: space, and the characters 9 to 13. -/
def isspace (c : Char) : Bool :=
  c.toNat = 32 || (9 ≤ c.toNat && c.toNat ≤ 13)

/-- The value of the longest prefix of decimal digits, `none` when there is no digit. -/
def read_digits : List Char → Option Nat → Option Nat
  | [], acc => acc
  | c :: cs, acc =>
    if 48 ≤ c.toNat ∧ c.toNat ≤ 57 then read_digits cs (some (acc.getD 0 * 10 + (c.toNat - 48)))
    else acc

/-- The largest `int`. -/
def INT_MAX : Int := 2147483647

/-- The smallest `int`. -/
def INT_MIN : Int := -2147483648

/-- Embeds `std::stoi(str)` (base 10): leading white space is skipped, then an optional sign and the
longest run of digits are read; what follows is ignored. No digit: `std::invalid_argument`.
A value that does not fit in `int`: `std::out_of_range`. -/
def stoi (str : String) : Except StoiError Int :=
  let cs := str.data.dropWhile isspace
  let signed : Bool × List Char :=
    match cs with
    | '-' :: r => (true, r)
    | '+' :: r => (false, r)
    | _ => (false, cs)
  match read_digits signed.2 none with
  | none => .error .invalid_argument
  | some v =>
    let n : Int := if signed.1 then -(v : Int) else (v : Int)
    if INT_MIN ≤ n ∧ n ≤ INT_MAX then .ok n else .error .out_of_range

/-- A 32-bit `int` result, wrapped to two's complement (`id - 1` overflows for `INT_MIN`). -/
def wrap32 (x : Int) : Int := (x + 2147483648) % 4294967296 - 2147483648

/-- The member functions of `job::Job` that `builtin_fg` and `builtin_bg` call. Their
definitions (`job.cpp`) are not part of the sources, so they are parameters: two predicates,
the formatting of the report line, and the effect of each action on the job. -/
structure JobOps (J : Type) where
  is_background : J → Bool
  is_stopped : J → Bool
  format_job_info : J → String → String
  set_foreground : J → J
  set_background : J → J
  continue_job : J → J
  put_in_foreground : J → Int → J
  put_in_background : J → Int → J

/-- How a call of `builtin_fg` or `builtin_bg` ends: it returns a code, leaving the job table
`jobs` and having printed `out`; or an exception leaves the function; or the null
`shared_ptr` is dereferenced (only with an empty argument list). -/
inductive Outcome (J : Type)
  | returned (code : Int) (jobs : List J) (out : List String)
  | threw (e : StoiError)
  | null_deref
  deriving DecidableEq, Repr

/-- The loop at lines 202 to 206 (and 250 to 254): from `crbegin()` to `crend()`, `job = *it`
whenever the job is in the background or stopped, with no `break`. The result is the position
in the table of the job `job` points to after the loop. -/
def select_job {J : Type} (ops : JobOps J) (jobs : List J) : Option Nat :=
  jobs.enum.reverse.foldl
    (fun job it => if ops.is_background it.2 || ops.is_stopped it.2 then some it.1 else job) none

/-- Lines 213 to 219: the report line, `set_foreground`, then `continue_job` on a stopped job
and `put_in_foreground(0)` otherwise, on the job at position `i` of the table (the table
holds `shared_ptr`s, so the job is changed in place). -/
def fg_act {J : Type} (ops : JobOps J) (jobs : List J) (i : Nat) : Outcome J :=
  match jobs.get? i with
  | none => .null_deref
  | some job =>
    let j1 := ops.set_foreground job
    let j2 := if ops.is_stopped j1 then ops.continue_job j1 else ops.put_in_foreground j1 0
    .returned 0 (jobs.set i j2) [ops.format_job_info job "running"]

/-- Lines 261 to 267: as `fg_act`, with `set_background` and `put_in_background(0)`. -/
def bg_act {J : Type} (ops : JobOps J) (jobs : List J) (i : Nat) : Outcome J :=
  match jobs.get? i with
  | none => .null_deref
  | some job =>
    let j1 := ops.set_background job
    let j2 := if ops.is_stopped j1 then ops.continue_job j1 else ops.put_in_background j1 0
    .returned 0 (jobs.set i j2) [ops.format_job_info job "running"]

/-- Embeds `builtin_fg(args)` on the job table `dish_context.jobs`. Only `std::invalid_argument` is
caught around `std::stoi`. -/
def builtin_fg {J : Type} (ops : JobOps J) (jobs : List J) (args : List String) : Outcome J :=
  if args.length > 2 then .returned (-1) jobs ["fg: too many arguments."]
  else if args.length = 2 then
    match stoi (args.getD 1 "") with
    | .error .invalid_argument => .returned (-1) jobs ["fg: invalid argument."]
    | .error .out_of_range => .threw .out_of_range
    | .ok id =>
      if wrap32 (id - 1) < 0 ∨ wrap32 (id - 1) ≥ (jobs.length : Int) then
        .returned (-1) jobs ["fg: invalid job id."]
      else fg_act ops jobs (wrap32 (id - 1)).toNat
  else if args.length = 1 then
    match select_job ops jobs with
    | none => .returned (-1) jobs ["fg: no current job"]
    | some i => fg_act ops jobs i
  else .null_deref

/-- Embeds `builtin_bg(args)`, line for line as `builtin_fg`. -/
def builtin_bg {J : Type} (ops : JobOps J) (jobs : List J) (args : List String) : Outcome J :=
  if args.length > 2 then .returned (-1) jobs ["bg: too many arguments."]
  else if args.length = 2 then
    match stoi (args.getD 1 "") with
    | .error .invalid_argument => .returned (-1) jobs ["bg: invalid argument."]
    | .error .out_of_range => .threw .out_of_range
    | .ok id =>
      if wrap32 (id - 1) < 0 ∨ wrap32 (id - 1) ≥ (jobs.length : Int) then
        .returned (-1) jobs ["bg: invalid job id."]
      else bg_act ops jobs (wrap32 (id - 1)).toNat
  else if args.length = 1 then
    match select_job ops jobs with
    | none => .returned (-1) jobs ["bg: no current job"]
    | some i => bg_act ops jobs i
  else .null_deref

/-- A job for the examples: its command line, whether it runs in the background, whether it
is stopped. -/
structure DemoJob where
  command_str : String
  background : Bool
  stopped : Bool
  deriving DecidableEq, Repr

/-- Job operations for the examples: the flags are read and set in the plain way. -/
def demo_ops : JobOps DemoJob where
  is_background := fun j => j.background
  is_stopped := fun j => j.stopped
  format_job_info := fun j status => j.command_str ++ " " ++ status
  set_foreground := fun j => { j with background := false }
  set_background := fun j => { j with background := true }
  continue_job := fun j => { j with stopped := false }
  put_in_foreground := fun j _ => j
  put_in_background := fun j _ => j

/-- A table of two background jobs: job 1 is `sleep 100`, job 2 is `sleep 200`. -/
def two_jobs : List DemoJob :=
  [⟨"sleep 100", true, false⟩, ⟨"sleep 200", true, false⟩]

/-- A table of two stopped jobs: job 1 is `vim`, job 2 is `top`. -/
def two_stopped : List DemoJob :=
  [⟨"vim", false, true⟩, ⟨"top", false, true⟩]

/-- The fault a run ended in, if it did not return. -/
def fault_of (r : Except Fault (Int × Sys)) : Option Fault :=
  match r with
  | .ok _ => none
  | .error e => some e

/-- As `env_plain`, in a directory where no pattern matches anything. -/
def env_nomatch : Env := { env_plain with utils := utils_nomatch }

/-! ## Theorems -/

theorem expand_wildcards_loop_eq_zip (u : Utils) (fuel : Nat) :
    ∀ (args : List String) (it : Nat) (calls : List String), it ≤ args.length →
      expand_wildcards_loop u fuel args it calls
        = expand_wildcards_zip u fuel (args.take it) (args.drop it) calls := by
  induction fuel with
  | zero => intro args it calls _; simp [expand_wildcards_loop, expand_wildcards_zip]
  | succ fuel ih =>
    intro args it calls hle
    unfold expand_wildcards_loop
    by_cases h : it < args.length
    · have hdrop : args.drop it = args.get ⟨it, h⟩ :: args.drop (it + 1) := by
        rw [List.drop_eq_getElem_cons h]; rfl
      have herase : args.eraseIdx it = args.take it ++ args.drop (it + 1) :=
        List.eraseIdx_eq_take_drop_succ args it
      have hlen : (args.take it).length = it := by simp; omega
      rw [dif_pos h, hdrop]
      by_cases hw : u.has_wildcards (args.get ⟨it, h⟩) = true
      · rw [if_pos hw]
        simp only [expand_wildcards_zip]
        rw [if_pos hw, ih _ it _ (by simp [herase]; omega)]
        congr 1
        · rw [herase, List.append_assoc, List.take_append_eq_append_take]
          simp [hlen]
        · rw [herase, List.append_assoc, List.drop_append_eq_append_drop]
          simp [hlen]
      · rw [if_neg hw]
        simp only [expand_wildcards_zip]
        rw [if_neg hw, ih args (it + 1) calls h]
        congr 1
        rw [List.take_succ]
        simp [List.getElem?_eq_getElem h]
    · have hit : it = args.length := by omega
      subst hit
      simp [expand_wildcards_zip]

theorem expand_wildcards_zip_walk (u : Utils) (rest calls : List String) (fuel : Nat) :
    ∀ (l done : List String), (∀ t ∈ l, u.has_wildcards t = false) →
      expand_wildcards_zip u (fuel + l.length) done (l ++ rest) calls
        = expand_wildcards_zip u fuel (done ++ l) rest calls := by
  intro l
  induction l with
  | nil => intro done _; simp
  | cons a l ih =>
    intro done hl
    have ha : u.has_wildcards a = false := hl a (List.mem_cons_self a l)
    have hl2 : ∀ t ∈ l, u.has_wildcards t = false := fun t ht => hl t (List.mem_cons_of_mem a ht)
    have hf : fuel + (a :: l).length = (fuel + l.length) + 1 := by simp; omega
    rw [hf, List.cons_append]
    simp only [expand_wildcards_zip, ha]
    rw [ih (done ++ [a]) hl2]
    simp

theorem expand_wildcards_zip_total (u : Utils)
    (H : ∀ s, u.has_wildcards s = true → ∀ t ∈ u.expand_wildcards s, u.has_wildcards t = false) :
    ∀ (rest done calls : List String), ∃ n, ∀ fuel, n ≤ fuel →
      expand_wildcards_zip u fuel done rest calls
        = some (done ++ expand_spec u rest, calls ++ rest.filter u.has_wildcards) := by
  intro rest
  induction rest with
  | nil =>
    intro done calls
    refine ⟨1, fun fuel hf => ?_⟩
    obtain ⟨k, rfl⟩ : ∃ k, fuel = k + 1 := ⟨fuel - 1, by omega⟩
    simp [expand_wildcards_zip, expand_spec]
  | cons a rest ih =>
    intro done calls
    by_cases hw : u.has_wildcards a = true
    · obtain ⟨n, hn⟩ := ih (done ++ u.expand_wildcards a) (calls ++ [a])
      refine ⟨n + (u.expand_wildcards a).length + 1, fun fuel hf => ?_⟩
      obtain ⟨k, rfl⟩ : ∃ k, fuel = (k + (u.expand_wildcards a).length) + 1 :=
        ⟨fuel - (u.expand_wildcards a).length - 1, by omega⟩
      simp only [expand_wildcards_zip, hw, if_true]
      rw [expand_wildcards_zip_walk u rest (calls ++ [a]) k _ done (H a hw), hn k (by omega)]
      simp [expand_spec, hw, List.filter_cons]
    · obtain ⟨n, hn⟩ := ih (done ++ [a]) calls
      refine ⟨n + 1, fun fuel hf => ?_⟩
      obtain ⟨k, rfl⟩ : ∃ k, fuel = k + 1 := ⟨fuel - 1, by omega⟩
      simp only [expand_wildcards_zip, hw]
      rw [if_neg (by simp), hn k (by omega)]
      simp [expand_spec, hw, List.filter_cons]

/-- When no string produced by an expansion itself has wildcards, the loop of
`SimpleCmd::expand_wildcards` terminates (every fuel from some bound on gives the same result),
`args` ends as the in-order concatenation in which each original argument with wildcards is
replaced by its expansion and every other argument is kept, and the expansion function was
called exactly on the original arguments with wildcards, once each, in order. -/
theorem expand_wildcards_correct (u : Utils) (args : List String)
    (H : ∀ s, u.has_wildcards s = true → ∀ t ∈ u.expand_wildcards s, u.has_wildcards t = false) :
    ∃ n, ∀ fuel, n ≤ fuel →
      expand_wildcards u fuel args = some (expand_spec u args, args.filter u.has_wildcards) := by
  obtain ⟨n, hn⟩ := expand_wildcards_zip_total u H args [] []
  refine ⟨n, fun fuel hf => ?_⟩
  unfold expand_wildcards
  rw [expand_wildcards_loop_eq_zip u fuel args 0 [] (Nat.zero_le _)]
  simpa using hn fuel hf

theorem expand_wildcards_correct_witness :
    (∀ s, utils_src.has_wildcards s = true →
        ∀ t ∈ utils_src.expand_wildcards s, utils_src.has_wildcards t = false) ∧
    expand_spec utils_src ["cc", "*.c", "-o", "x"] = ["cc", "x.c", "y.c", "-o", "x"] ∧
    ∃ n, ∀ fuel, n ≤ fuel →
      expand_wildcards utils_src fuel ["cc", "*.c", "-o", "x"]
        = some (expand_spec utils_src ["cc", "*.c", "-o", "x"],
            ["cc", "*.c", "-o", "x"].filter utils_src.has_wildcards) := by
  have H : ∀ s, utils_src.has_wildcards s = true →
      ∀ t ∈ utils_src.expand_wildcards s, utils_src.has_wildcards t = false := by
    intro s _ t ht
    simp only [utils_src] at ht ⊢
    split at ht
    · simp only [List.mem_cons, List.mem_singleton, List.not_mem_nil, or_false] at ht
      rcases ht with rfl | rfl <;> decide
    · simp at ht
  exact ⟨H, by decide, expand_wildcards_correct utils_src _ H⟩

/-- C9 (code at the failing input): in a directory holding `x1.c` and `x[1].c`, the
arguments `cc *.c` end as `cc x1.c x1.c` and not as `cc x1.c x[1].c`: the iterator is left on
the first inserted string, so the match `x[1].c` is expanded again as a pattern. In a
directory holding a file named `*`, expanding `*` never finishes. -/
theorem expand_wildcards_reexpands :
    expand_wildcards utils_brackets 6 ["cc", "*.c"]
      = some (["cc", "x1.c", "x1.c"], ["*.c", "x[1].c"]) ∧
    expand_spec utils_brackets ["cc", "*.c"] = ["cc", "x1.c", "x[1].c"] ∧
    ¬ ∃ fuel, (expand_wildcards utils_star fuel ["*"]).isSome = true := by
  refine ⟨by decide, by decide, ?_⟩
  rintro ⟨fuel, h⟩
  have key : ∀ (n : Nat) (calls : List String),
      expand_wildcards_loop utils_star n ["*"] 0 calls = none := by
    intro n
    induction n with
    | zero => intro calls; rfl
    | succ n ih =>
      intro calls
      have := ih (calls ++ ["*"])
      simpa [expand_wildcards_loop, utils_star, glob_chars] using this
  simp [expand_wildcards, key] at h

/-! ### System calls -/

theorem extends_refl (s : Sys) : s.extends_to s := ⟨[], by simp⟩

theorem extends_trans {a b c : Sys} (h1 : a.extends_to b) (h2 : b.extends_to c) :
    a.extends_to c := by
  obtain ⟨l1, h1⟩ := h1
  obtain ⟨l2, h2⟩ := h2
  exact ⟨l1 ++ l2, by rw [h2, h1, List.append_assoc]⟩

theorem ok_to_split {a b c : Sys} (h : a.ok_to c) (h1 : a.extends_to b) (h2 : b.extends_to c) :
    a.ok_to b ∧ b.ok_to c := by
  obtain ⟨l, hl, hok⟩ := h
  obtain ⟨l1, h1⟩ := h1
  obtain ⟨l2, h2⟩ := h2
  have : l = l1 ++ l2 := by
    have := hl.symm.trans (h2.trans (by rw [h1, List.append_assoc]))
    exact List.append_cancel_left this
  subst this
  exact ⟨⟨l1, h1, fun e he => hok e (List.mem_append_left _ he)⟩,
    ⟨l2, h2, fun e he => hok e (List.mem_append_right _ he)⟩⟩

theorem ok_to_event {a b : Sys} {e : Event} (h : a.ok_to b) (ht : b.trace = a.trace ++ [e]) :
    e.ok = true := by
  obtain ⟨l, hl, hok⟩ := h
  have : l = [e] := List.append_cancel_left (hl.symm.trans ht)
  subst this
  exact hok e (List.mem_singleton_self e)

theorem sys_dup_trace (fd : Int) (s : Sys) :
    (sys_dup fd s).2.trace = s.trace ++ [Event.sys (.dup fd) (sys_dup fd s).1] := by
  unfold sys_dup
  split <;> simp [Sys.record]

theorem sys_dup2_trace (oldfd newfd : Int) (s : Sys) :
    (sys_dup2 oldfd newfd s).2.trace
      = s.trace ++ [Event.sys (.dup2 oldfd newfd) (sys_dup2 oldfd newfd s).1] := by
  unfold sys_dup2
  split
  · split <;> simp [Sys.record]
  · simp [Sys.record]

theorem sys_close_trace (fd : Int) (s : Sys) :
    (sys_close fd s).2.trace = s.trace ++ [Event.sys (.close fd) (sys_close fd s).1] := by
  unfold sys_close
  split <;> simp [Sys.record]

theorem sys_open_trace (path : String) (mode : Nat) (s : Sys) :
    (sys_open path mode s).2.trace
      = s.trace ++ [Event.sys (.open_ path mode) (sys_open path mode s).1] := by
  unfold sys_open
  split <;> simp [Sys.record]

theorem restore_extends (tmpin tmpout ret : Int) (s : Sys) :
    s.extends_to (Command.restore tmpin tmpout ret s).2 := by
  unfold Command.restore
  simp only
  split_ifs <;>
    exact ⟨_, by simp only [println, sys_dup2_trace, sys_close_trace, List.append_assoc]; rfl⟩

theorem println_extends (msg : String) (s : Sys) : s.extends_to (println msg s) :=
  ⟨[Event.println msg], rfl⟩

theorem sys_dup_extends (fd : Int) (s : Sys) : s.extends_to (sys_dup fd s).2 :=
  ⟨_, sys_dup_trace fd s⟩

theorem sys_dup2_extends (oldfd newfd : Int) (s : Sys) :
    s.extends_to (sys_dup2 oldfd newfd s).2 :=
  ⟨_, sys_dup2_trace oldfd newfd s⟩

theorem sys_close_extends (fd : Int) (s : Sys) : s.extends_to (sys_close fd s).2 :=
  ⟨_, sys_close_trace fd s⟩

theorem sys_open_extends (path : String) (mode : Nat) (s : Sys) :
    s.extends_to (sys_open path mode s).2 :=
  ⟨_, sys_open_trace path mode s⟩

theorem redirect_get_extends (r : Redirect) (mode : Nat) (s : Sys) :
    s.extends_to (r.get mode s).2 := by
  unfold Redirect.get
  split
  · exact extends_refl s
  · exact sys_open_extends _ _ s

theorem event_sys_ok (call : Call) (ret : Int) : (Event.sys call ret).ok = true ↔ ret ≠ -1 := by
  simp [Event.ok]

theorem ok_mid {a b c d : Sys} (hok : a.ok_to d) (h1 : a.extends_to b) (h2 : b.extends_to c)
    (h3 : c.extends_to d) : b.ok_to c :=
  (ok_to_split (ok_to_split hok h1 (extends_trans h2 h3)).2 h2 h3).1

theorem sys_dup_ok_to (fd : Int) (s : Sys) (h : s.ok_to (sys_dup fd s).2) :
    (sys_dup fd s).1 ≠ -1 :=
  (event_sys_ok _ _).1 (ok_to_event h (sys_dup_trace fd s))

theorem sys_dup2_ok_to (oldfd newfd : Int) (s : Sys) (h : s.ok_to (sys_dup2 oldfd newfd s).2) :
    (sys_dup2 oldfd newfd s).1 ≠ -1 :=
  (event_sys_ok _ _).1 (ok_to_event h (sys_dup2_trace oldfd newfd s))

theorem sys_close_ok_to (fd : Int) (s : Sys) (h : s.ok_to (sys_close fd s).2) :
    (sys_close fd s).1 ≠ -1 :=
  (event_sys_ok _ _).1 (ok_to_event h (sys_close_trace fd s))

theorem sys_open_ok_to (path : String) (mode : Nat) (s : Sys)
    (h : s.ok_to (sys_open path mode s).2) : (sys_open path mode s).1 ≠ -1 :=
  (event_sys_ok _ _).1 (ok_to_event h (sys_open_trace path mode s))

/-- The choice of the first `fdin` only adds to the trace. -/
theorem input_extends (c : Command) (tmpin : Int) (s : Sys) :
    s.extends_to (c.input tmpin s).2 := by
  unfold Command.input
  simp only
  split_ifs
  · exact extends_trans (redirect_get_extends _ _ _) (println_extends _ _)
  · exact redirect_get_extends _ _ _
  · exact extends_trans (sys_dup_extends _ _) (println_extends _ _)
  · exact sys_dup_extends _ _

/-- C1 (code at the failing input): in the pipeline `a | b` run from a shell holding its
terminal on 0, 1 and 2, unit `a` is executed while descriptor 1 still refers to the shell's own
standard output, not to the write end of the new pipe: `dup2(fdout, 1)` comes after
`scmd->execute()`. Unit `b` is then executed with descriptor 0 on the read end of that pipe
and descriptor 1 on its write end. -/
theorem two_stage_stdout_not_piped :
    (trace_of (two_stage.execute env_plain 4 (shell []))).map executes
      = some [(["a"], some (File.inherited 0), some (File.inherited 1)),
              (["b"], some (File.pipe_read 0), some (File.pipe_write 0))] := by
  decide

/-- C2 (code at the failing input): in the pipeline `a | b`, when the `fork` for unit `a`
fails (the seventh system call of the run), `Command::execute` goes on: unit `b` is executed
after the failure, and the result is 0. -/
theorem failed_fork_goes_on :
    returned (two_stage.execute env_plain 4
        (shell [false, false, false, false, false, false, true])) = some 0 ∧
    (trace_of (two_stage.execute env_plain 4
        (shell [false, false, false, false, false, false, true]))).map
        (fun t => (t.take 8, executes (t.drop 8)))
      = some ([Event.sys (.dup 0) 3, Event.sys (.dup 1) 4, Event.sys (.dup 3) 5,
               Event.sys (.dup2 5 0) 0, Event.sys (.close 5) 0, Event.sys .pipe 0,
               Event.execute ["a"] (some (File.inherited 0)) (some (File.inherited 1)),
               Event.sys .fork (-1)],
              [(["b"], some (File.pipe_read 0), some (File.pipe_write 0))]) := by
  decide

/-- C3 (as stated) fails: `Command::execute` on a command with no units, with the default
redirects, from a shell holding its terminal, returns 0; no unit is run. -/
theorem execute_empty_returns_zero :
    returned ((Command.mk_default []).execute env_plain 4 (shell [])) = some 0 ∧
    (trace_of ((Command.mk_default []).execute env_plain 4 (shell []))).map executes
      = some [] := by
  decide

/-- C5 (as stated) fails: the overwrite target of `a > out.txt` is opened with `O_WRONLY`, not
with write+truncate, and the append target of `a >> log.txt < in.txt` is opened with
`O_WRONLY` as well, not with write+append; the mode is the one `Command::execute` passes,
whatever the kind. -/
theorem open_mode_ignores_kind :
    (trace_of (to_file.execute env_plain 4 (shell []))).map opens
      = some [("out.txt", O_WRONLY)] ∧
    spec_open_mode to_file.out.type = some (O_WRONLY ||| O_TRUNC) ∧
    (trace_of (append_file.execute env_plain 4 (shell []))).map opens
      = some [("in.txt", O_RDONLY), ("log.txt", O_WRONLY)] ∧
    spec_open_mode append_file.out.type = some (O_WRONLY ||| O_APPEND) ∧
    O_WRONLY ≠ (O_WRONLY ||| O_TRUNC) ∧ O_WRONLY ≠ (O_WRONLY ||| O_APPEND) := by
  decide

/-- C6: for a target holding a raw descriptor `d`, whatever its kind and whatever the mode
argument, `Redirect::get` returns `d` and leaves the state as it is: the descriptor table is
unchanged and no call, so no `open` and no `close`, is made. -/
theorem redirect_get_descriptor (type : RedirectType) (d : Int) (mode : Nat) (s : Sys) :
    Redirect.get ⟨type, .inl d⟩ mode s = (d, s) := rfl

/-- C7 (code at the failing input): `fg 99999999999` and `bg 99999999999` on a table of two
jobs do not return: `std::stoi` throws `std::out_of_range`, which the handler for
`std::invalid_argument` does not catch. -/
theorem huge_job_id_throws :
    builtin_fg demo_ops two_jobs ["fg", "99999999999"] = Outcome.threw StoiError.out_of_range ∧
    builtin_bg demo_ops two_jobs ["bg", "99999999999"] = Outcome.threw StoiError.out_of_range := by
  decide

/-- C8 (code at the failing input): with two background jobs in the table, `fg` without an id
selects job 1, the eligible job with the lowest number, and acts on it; job 2, the most recent
one, is left as it was. `bg` on two stopped jobs does the same. -/
theorem no_id_selects_first_eligible :
    select_job demo_ops two_jobs = some 0 ∧
    builtin_fg demo_ops two_jobs ["fg"]
      = Outcome.returned 0 [⟨"sleep 100", false, false⟩, ⟨"sleep 200", true, false⟩]
          ["sleep 100 running"] ∧
    builtin_bg demo_ops two_stopped ["bg"]
      = Outcome.returned 0 [⟨"vim", true, false⟩, ⟨"top", false, true⟩] ["vim running"] := by
  decide

/-! ### Runs without units, and the modes of the opens -/

theorem quiet_refl (s : Sys) : s.quiet_to s := ⟨[], by simp, rfl⟩

theorem quiet_trans {a b c : Sys} (h1 : a.quiet_to b) (h2 : b.quiet_to c) : a.quiet_to c := by
  obtain ⟨l1, h1, q1⟩ := h1
  obtain ⟨l2, h2, q2⟩ := h2
  refine ⟨l1 ++ l2, by rw [h2, h1, List.append_assoc], ?_⟩
  simp only [executes, List.filterMap_append] at q1 q2 ⊢
  rw [q1, q2]
  rfl

theorem println_quiet (msg : String) (s : Sys) : s.quiet_to (println msg s) :=
  ⟨[Event.println msg], rfl, rfl⟩

theorem sys_dup_quiet (fd : Int) (s : Sys) : s.quiet_to (sys_dup fd s).2 :=
  ⟨_, sys_dup_trace fd s, rfl⟩

theorem sys_dup2_quiet (oldfd newfd : Int) (s : Sys) : s.quiet_to (sys_dup2 oldfd newfd s).2 :=
  ⟨_, sys_dup2_trace oldfd newfd s, rfl⟩

theorem sys_close_quiet (fd : Int) (s : Sys) : s.quiet_to (sys_close fd s).2 :=
  ⟨_, sys_close_trace fd s, rfl⟩

theorem sys_open_quiet (path : String) (mode : Nat) (s : Sys) :
    s.quiet_to (sys_open path mode s).2 :=
  ⟨_, sys_open_trace path mode s, rfl⟩

theorem redirect_get_quiet (r : Redirect) (mode : Nat) (s : Sys) :
    s.quiet_to (r.get mode s).2 := by
  unfold Redirect.get
  split
  · exact quiet_refl s
  · exact sys_open_quiet _ _ s

theorem input_quiet (c : Command) (tmpin : Int) (s : Sys) : s.quiet_to (c.input tmpin s).2 := by
  unfold Command.input
  simp only
  split_ifs
  · exact quiet_trans (redirect_get_quiet _ _ _) (println_quiet _ _)
  · exact redirect_get_quiet _ _ _
  · exact quiet_trans (sys_dup_quiet _ _) (println_quiet _ _)
  · exact sys_dup_quiet _ _

theorem restore_quiet (tmpin tmpout ret : Int) (s : Sys) :
    s.quiet_to (Command.restore tmpin tmpout ret s).2 := by
  have q1 := sys_dup2_quiet tmpin 0 s
  have q2 := quiet_trans q1 (sys_dup2_quiet tmpout 1 _)
  have q3 := quiet_trans q2 (sys_close_quiet tmpin _)
  have q4 := quiet_trans q3 (sys_close_quiet tmpout _)
  unfold Command.restore
  simp only
  split_ifs
  · exact quiet_trans q1 (println_quiet _ _)
  · exact quiet_trans q2 (println_quiet _ _)
  · exact quiet_trans q3 (println_quiet _ _)
  · exact quiet_trans q4 (println_quiet _ _)
  · exact q4

theorem restore_value (tmpin tmpout ret : Int) (s : Sys) :
    (Command.restore tmpin tmpout ret s).1 = ret ∨ (Command.restore tmpin tmpout ret s).1 = -1 := by
  unfold Command.restore
  simp only
  split_ifs <;> simp

theorem restore_value_ok (tmpin tmpout ret : Int) (s : Sys)
    (hok : s.ok_to (Command.restore tmpin tmpout ret s).2) :
    (Command.restore tmpin tmpout ret s).1 = ret := by
  have x1 := sys_dup2_extends tmpin 0 s
  have x2 := sys_dup2_extends tmpout 1 (sys_dup2 tmpin 0 s).2
  have x3 := sys_close_extends tmpin (sys_dup2 tmpout 1 (sys_dup2 tmpin 0 s).2).2
  have x4 := sys_close_extends tmpout
    (sys_close tmpin (sys_dup2 tmpout 1 (sys_dup2 tmpin 0 s).2).2).2
  unfold Command.restore at hok ⊢
  simp only at hok ⊢
  split_ifs at hok ⊢ with h1 h2 h3 h4
  · exact absurd h1 (sys_dup2_ok_to _ _ _ (ok_to_split hok x1 (println_extends _ _)).1)
  · exact absurd h2 (sys_dup2_ok_to _ _ _ (ok_mid hok x1 x2 (println_extends _ _)))
  · exact absurd h3 (sys_close_ok_to _ _
      (ok_mid hok (extends_trans x1 x2) x3 (println_extends _ _)))
  · exact absurd h4 (sys_close_ok_to _ _
      (ok_mid hok (extends_trans (extends_trans x1 x2) x3) x4 (println_extends _ _)))
  · rfl

/-- Unless `in` is the raw descriptor `-1`, the choice of `fdin` returns early only after a
failed call. -/
theorem input_none_of_ne (c : Command) (tmpin : Int) (s : Sys)
    (hin : c.in_.redirect ≠ .inl (-1))
    (h : (c.input tmpin s).1 = none) : ¬ s.ok_to (c.input tmpin s).2 := by
  intro hok
  unfold Command.input at h hok
  simp only at h hok
  split_ifs at h hok with hd hr hr
  · cases hred : c.in_.redirect with
    | inl d =>
      simp only [Redirect.get, hred] at hr
      exact hin (hred.trans (by rw [hr]))
    | inr p =>
      simp only [Redirect.get, hred] at hr hok
      exact sys_open_ok_to _ _ _
        (ok_to_split hok (sys_open_extends _ _ _) (println_extends _ _)).1 hr
  · exact sys_dup_ok_to _ _ (ok_to_split hok (sys_dup_extends _ _) (println_extends _ _)).1 hr

/-- C3 (amended): a pipeline with zero units is not rejected. For every choice of redirects
and background flag and from every state, `Command::execute` on an empty list of units
returns, runs no unit, and its result is 0 or -1; the result is 0 whenever every system call
of the run succeeded and `in` is not the raw descriptor -1 (which the code takes for a failed
`open`). -/
theorem execute_empty (env : Env) (fuel : Nat) (c : Command) (s : Sys)
    (h : c.commands = []) :
    ∃ (r : Int) (s' : Sys), c.execute env fuel s = .ok (r, s') ∧ s.quiet_to s' ∧
      (r = 0 ∨ r = -1) ∧ (s.ok_to s' → c.in_.redirect ≠ .inl (-1) → r = 0) := by
  have q12 := quiet_trans (sys_dup_quiet 0 s) (sys_dup_quiet 1 (sys_dup 0 s).2)
  have x12 := extends_trans (sys_dup_extends 0 s) (sys_dup_extends 1 (sys_dup 0 s).2)
  have qi := input_quiet c (sys_dup 0 s).1 (sys_dup 1 (sys_dup 0 s).2).2
  have xi := input_extends c (sys_dup 0 s).1 (sys_dup 1 (sys_dup 0 s).2).2
  unfold Command.execute
  simp only [h]
  split
  · rename_i hnone
    refine ⟨_, _, rfl, quiet_trans q12 qi, Or.inr rfl, fun hok hin => ?_⟩
    exact absurd (ok_to_split hok x12 xi).2 (input_none_of_ne _ _ _ hin hnone)
  · rename_i fdin hsome
    refine ⟨_, _, rfl, quiet_trans (quiet_trans q12 qi) (restore_quiet _ _ _ _),
      restore_value _ _ _ _, fun hok _ => ?_⟩
    exact restore_value_ok _ _ _ _
      (ok_to_split hok (extends_trans x12 xi) (restore_extends _ _ _ _)).2

theorem execute_empty_witness :
    (Command.mk_default []).commands = [] ∧
    ∃ (r : Int) (s' : Sys),
      (Command.mk_default []).execute env_plain 4 (shell []) = .ok (r, s') ∧
      (shell []).quiet_to s' ∧ (r = 0 ∨ r = -1) ∧
      ((shell []).ok_to s' → (Command.mk_default []).in_.redirect ≠ .inl (-1) → r = 0) :=
  ⟨rfl, execute_empty env_plain 4 (Command.mk_default []) (shell []) rfl⟩

/-- C5 (amended): resolving a path-valued target performs exactly one call, an `open` of the
target's path with the mode the caller passes, whatever the kind of the target; and
`Command::execute` passes `O_RDONLY` for its `in` redirect and `O_WRONLY` for its `out`
redirect. -/
theorem redirect_get_path (type : RedirectType) (path : String) (mode : Nat) (s : Sys)
    (c : Command) (p q : String) (tmpin tmpout fdin : Int)
    (hin : c.in_.redirect = .inr p) (hout : c.out.redirect = .inr q) :
    (Redirect.get ⟨type, .inr path⟩ mode s).2.trace
      = s.trace ++ [Event.sys (.open_ path mode) (Redirect.get ⟨type, .inr path⟩ mode s).1] ∧
    opens (c.input tmpin s).2.trace = opens s.trace ++ [(p, O_RDONLY)] ∧
    opens (c.output true tmpout fdin s).2.trace = opens s.trace ++ [(q, O_WRONLY)] := by
  refine ⟨sys_open_trace path mode s, ?_, ?_⟩
  · have hcond : (!c.in_.is_description || c.in_.get_description != some 1) = true := by
      simp [Redirect.is_description, hin]
    unfold Command.input
    simp only [hcond, if_true, Redirect.get, hin]
    split_ifs <;> simp [opens, println, sys_open_trace, List.filterMap_append]
  · have hcond : (!c.out.is_description || c.out.get_description != some 0) = true := by
      simp [Redirect.is_description, hout]
    unfold Command.output
    simp only [hcond, if_true, Redirect.get, hout]
    split_ifs <;> simp [opens, println, sys_open_trace, List.filterMap_append]

theorem redirect_get_path_witness :
    append_file.in_.redirect = .inr "in.txt" ∧ append_file.out.redirect = .inr "log.txt" ∧
    (Redirect.get ⟨.append, .inr "log.txt"⟩ O_WRONLY (shell [])).2.trace
      = (shell []).trace ++ [Event.sys (.open_ "log.txt" O_WRONLY)
          (Redirect.get ⟨.append, .inr "log.txt"⟩ O_WRONLY (shell [])).1] ∧
    opens (append_file.input 3 (shell [])).2.trace
      = opens (shell []).trace ++ [("in.txt", O_RDONLY)] ∧
    opens (append_file.output true 4 5 (shell [])).2.trace
      = opens (shell []).trace ++ [("log.txt", O_WRONLY)] :=
  ⟨rfl, rfl, redirect_get_path .append "log.txt" O_WRONLY (shell []) append_file
    "in.txt" "log.txt" 3 4 5 rfl rfl⟩

theorem expand_wildcards_zip_keeps_plain (u : Utils) (fuel : Nat) :
    ∀ (done rest calls : List String) (r : List String × List String),
      expand_wildcards_zip u fuel done rest calls = some r →
      (∃ a ∈ done ++ rest, u.has_wildcards a = false) → r.1 ≠ [] := by
  induction fuel with
  | zero => intro done rest calls r h; simp [expand_wildcards_zip] at h
  | succ fuel ih =>
    intro done rest calls r h hex
    cases rest with
    | nil =>
      simp only [expand_wildcards_zip, Option.some.injEq] at h
      subst h
      obtain ⟨a, ha, -⟩ := hex
      exact List.ne_nil_of_mem (by simpa using ha)
    | cons b rest =>
      simp only [expand_wildcards_zip] at h
      obtain ⟨a, ha, hpa⟩ := hex
      by_cases hw : u.has_wildcards b = true
      · rw [if_pos hw] at h
        refine ih _ _ _ r h ⟨a, ?_, hpa⟩
        simp only [List.mem_append, List.mem_cons] at ha ⊢
        rcases ha with ha | rfl | ha
        · exact Or.inl ha
        · rw [hpa] at hw
          cases hw
        · exact Or.inr (Or.inr ha)
      · rw [if_neg hw] at h
        refine ih _ _ _ r h ⟨a, ?_, hpa⟩
        simp only [List.mem_append, List.mem_cons, List.mem_singleton] at ha ⊢
        rcases ha with ha | rfl | ha
        · exact Or.inl (Or.inl ha)
        · exact Or.inl (Or.inr (Or.inl rfl))
        · exact Or.inr ha

/-- A unit with at least one argument without wildcards never reads `args[0]` out of bounds,
whatever the expansion function returns: that argument is never erased, so the argument list
is non-empty whenever the expansion finishes. -/
theorem plain_arg_keeps_in_bounds (env : Env) (fuel : Nat) (c : SimpleCmd) (s : Sys)
    (hplain : ∃ a ∈ c.args, env.utils.has_wildcards a = false) :
    fault_of (c.execute env fuel s) ≠ some Fault.out_of_bounds ∧
    ∀ r, expand_wildcards env.utils fuel c.args = some r → r.1 ≠ [] := by
  have key : ∀ r, expand_wildcards env.utils fuel c.args = some r → r.1 ≠ [] := by
    intro r hr
    unfold expand_wildcards at hr
    rw [expand_wildcards_loop_eq_zip env.utils fuel c.args 0 [] (Nat.zero_le _)] at hr
    exact expand_wildcards_zip_keeps_plain env.utils fuel _ _ _ r hr (by simpa using hplain)
  refine ⟨?_, key⟩
  unfold SimpleCmd.execute
  split
  · simp [fault_of]
  · rename_i args calls hexp
    split
    · exact absurd rfl (key _ hexp)
    · split <;> simp [fault_of]

/-- C10 (code at the failing input): the unit whose only argument is the pattern `*.txt`, in a
directory where it matches nothing, has a non-empty argument list when `SimpleCmd::execute` is
called; the expansion erases the argument and inserts nothing, the argument list is empty, and
the read of `args[0]` that chooses between builtin and external dispatch is out of bounds. -/
theorem no_match_empties_args :
    (SimpleCmd.mk ["*.txt"]).args ≠ [] ∧
    expand_wildcards utils_nomatch 2 ["*.txt"] = some ([], ["*.txt"]) ∧
    fault_of ((SimpleCmd.mk ["*.txt"]).execute env_nomatch 2 (shell []))
      = some Fault.out_of_bounds := by
  decide

theorem stoi_range (s : String) (id : Int) (h : stoi s = .ok id) :
    INT_MIN ≤ id ∧ id ≤ INT_MAX := by
  unfold stoi at h
  simp only at h
  split at h
  · cases h
  · rename_i v _
    generalize (ite (_ = true) (-(v : Int)) (v : Int)) = n at h
    by_cases hr : INT_MIN ≤ n ∧ n ≤ INT_MAX
    · rw [if_pos hr] at h
      cases h
      exact hr
    · rw [if_neg hr] at h
      cases h

/-- An id that `std::stoi` reads and that is not the number of a job is turned down by
`builtin_fg` and `builtin_bg` with the code -1, the job table left as it is; so is a string
in which `std::stoi` finds no number. (The table is taken to hold fewer than 2^31 jobs.) -/
theorem invalid_id_returns {J : Type} (ops : JobOps J) (jobs : List J) (s : String)
    (hlen : (jobs.length : Int) ≤ INT_MAX) :
    (∀ id, stoi s = .ok id → (id < 1 ∨ (jobs.length : Int) < id) →
      builtin_fg ops jobs ["fg", s] = .returned (-1) jobs ["fg: invalid job id."] ∧
      builtin_bg ops jobs ["bg", s] = .returned (-1) jobs ["bg: invalid job id."]) ∧
    (stoi s = .error .invalid_argument →
      builtin_fg ops jobs ["fg", s] = .returned (-1) jobs ["fg: invalid argument."] ∧
      builtin_bg ops jobs ["bg", s] = .returned (-1) jobs ["bg: invalid argument."]) := by
  constructor
  · intro id h hid
    obtain ⟨h1, h2⟩ := stoi_range s id h
    have hc : wrap32 (id - 1) < 0 ∨ wrap32 (id - 1) ≥ (jobs.length : Int) := by
      unfold wrap32
      unfold INT_MIN at h1
      unfold INT_MAX at h2 hlen
      omega
    simp [builtin_fg, builtin_bg, h, hc]
  · intro h
    simp [builtin_fg, builtin_bg, h]

theorem select_job_foldr {J : Type} (ops : JobOps J) (jobs : List J) :
    ∀ n : Nat,
      (jobs.enumFrom n).foldr
        (fun it job => if ops.is_background it.2 || ops.is_stopped it.2 then some it.1 else job)
        none
      = jobs.findIdx? (fun j => ops.is_background j || ops.is_stopped j) n := by
  induction jobs with
  | nil => intro n; rfl
  | cons j jobs ih =>
    intro n
    simp only [List.enumFrom_cons, List.foldr_cons, List.findIdx?_cons, ih (n + 1)]

/-- Without an id, the job `builtin_fg` and `builtin_bg` select is the first one in table
order that is in the background or stopped, the eligible job with the lowest number; and with
no eligible job both return -1 and leave the table as it is. -/
theorem select_job_first {J : Type} (ops : JobOps J) (jobs : List J) :
    select_job ops jobs = jobs.findIdx? (fun j => ops.is_background j || ops.is_stopped j) ∧
    ((∀ j ∈ jobs, (ops.is_background j || ops.is_stopped j) = false) →
      builtin_fg ops jobs ["fg"] = .returned (-1) jobs ["fg: no current job"] ∧
      builtin_bg ops jobs ["bg"] = .returned (-1) jobs ["bg: no current job"]) := by
  have hsel : select_job ops jobs
      = jobs.findIdx? (fun j => ops.is_background j || ops.is_stopped j) := by
    unfold select_job
    rw [List.foldl_reverse]
    exact select_job_foldr ops jobs 0
  refine ⟨hsel, fun hnone => ?_⟩
  have : select_job ops jobs = none := by
    rw [hsel, List.findIdx?_eq_none_iff]
    intro j hj
    simpa using hnone j hj
  simp [builtin_fg, builtin_bg, this]

end Dish
